import Mathlib

/-!
# yt_downloads frontend: DecryptedText.js and App.js

A shallow embedding of the two client-side state machines of the frontend

* `DecryptedText`: the scramble/reveal animation loop (`startDecryption`, `animate`);
* `App`: `extractVideoId` and the progress handling of `handleDownload`.

Conventions of the embedding.

* A JS string is a `List Char` of its code units; the regular expression of `extractVideoId`
  only ever matches ASCII code units, so the identification is harmless there.
* React state cells and refs are fields of a record, a `setX(v)` is a field update, and the
  state "left by a handler" is the record after the handler's last update.
* Timers are boolean fields saying whether the timer is live; firing a timer is an explicit
  transition.
* `Math.random()` is an oracle: a stream of draws for the animation, an explicit argument for a
  simulated progress tick.
* JS numbers are exact: byte counts are naturals, percentages are integers, and the
  intermediate quotients and products are rationals (`Math.floor` is `Int.floor`,
  `Math.round x` is `Int.floor (x + 1/2)`). Double rounding can reach a result in two places.
  The sum `prev + Math.random() * 5` of the simulated tick has a double value between `prev`
  and `prev + 5`, both ends included, for a draw in `[0, 1)`; the bounds on the simulated
  percent are therefore proved for draws in the closed interval `[0, 1]` as well, which covers
  every value that sum can take. The quotient `loaded * 100 / total` can round onto a half
  only for byte counts of tens of terabytes and more; below that `Math.round` of the double
  and of the exact quotient agree, and the exact quotient is what is modelled.
-/

namespace DecryptedText

/-- The props read by the animation loop. -/
structure Props where
  text : List Char
  maxIterations : Nat
  characters : List Char
  revealDirection : String
deriving DecidableEq, Repr

/-- The mutable cells of one mounted component: the `displayText` and `isDecrypting` state
cells, `iterationCountRef`, `revealedIndicesRef` (a JS `Set`, kept in insertion order),
whether a call of `animate` is due (the effect's direct call right after `isDecrypting` became
true, or the `setTimeout` stored in `animationFrameRef`), and how many random draws were
consumed so far. -/
structure State where
  displayText : List Char
  isDecrypting : Bool
  iterationCount : Nat
  revealedIndices : List Int
  animateDue : Bool
  randomCalls : Nat
deriving DecidableEq, Repr

/-- The JS `Set.prototype.add`: appends the element unless it is already a member. -/
def setAdd (s : List Int) (i : Int) : List Int :=
  if i ∈ s then s else s ++ [i]

/-- The function `getRandomChar`: `characters[Math.floor(Math.random() * characters.length)]`.
`rnd k` is the value of `Math.floor(Math.random() * characters.length)` at the `k`-th draw; an
index outside the string reads `undefined`, which string concatenation renders as the text
`undefined`. -/
def getRandomChar (p : Props) (rnd : Nat → Nat) (k : Nat) : List Char :=
  match p.characters.get? (rnd k) with
  | some c => [c]
  | none => "undefined".toList

/-- The function `startDecryption`; setting `isDecrypting` makes the effect run, whose first
action is a direct call of `animate`. -/
def startDecryption (s : State) : State :=
  if s.isDecrypting then s
  else { s with isDecrypting := true, iterationCount := 0, revealedIndices := [], animateDue := true }

/-- The index chosen by `animate` when `revealedCount` indices are revealed. On the naturals
`Math.floor(textLength / 2)` is `textLength / 2` and `Math.ceil((revealedCount + 1) / 2)` is
`(revealedCount + 1 + 1) / 2` (see `mid_eq_floor` and `distance_eq_ceil`). -/
def indexToReveal (p : Props) (revealedCount : Nat) : Int :=
  let textLength : Int := p.text.length
  if p.revealDirection = "center" then
    let mid : Int := ((p.text.length / 2 : Nat) : Int)
    let distance : Int := (((revealedCount + 1 + 1) / 2 : Nat) : Int)
    let idx : Int := mid + (if revealedCount % 2 = 0 then distance else -distance)
    if idx < 0 ∨ idx ≥ textLength then (revealedCount : Int) else idx
  else (revealedCount : Int)

/-- The display loop of `animate`, from position `i` on the remaining characters `cs` of the
text: a revealed position shows its character, any other one a fresh random character. Returns
the text built and the number of draws consumed so far. -/
def render (p : Props) (rnd : Nat → Nat) (revealed : List Int) :
    Nat → Nat → List Char → List Char × Nat
  | _, k, [] => ([], k)
  | i, k, c :: cs =>
    if (i : Int) ∈ revealed then
      ((render p rnd revealed (i + 1) k cs).1.cons c, (render p rnd revealed (i + 1) k cs).2)
    else
      (getRandomChar p rnd k ++ (render p rnd revealed (i + 1) (k + 1) cs).1,
        (render p rnd revealed (i + 1) (k + 1) cs).2)

/-- One call of `animate`. -/
def animate (p : Props) (rnd : Nat → Nat) (s : State) : State :=
  let textLength := p.text.length
  let revealedCount := s.revealedIndices.length
  if revealedCount ≥ textLength then
    { s with displayText := p.text, isDecrypting := false, animateDue := false }
  else
    let s1 : State :=
      if s.iterationCount ≥ p.maxIterations then
        let idx := indexToReveal p revealedCount
        { s with
          revealedIndices := if idx < (textLength : Int) then setAdd s.revealedIndices idx
                             else s.revealedIndices
          iterationCount := 0 }
      else s
    let frame := render p rnd s1.revealedIndices 0 s1.randomCalls p.text
    { s1 with
      displayText := frame.1
      iterationCount := s1.iterationCount + 1
      animateDue := true
      randomCalls := frame.2 }

/-- The state after the first `n` calls of `animate` of the run begun by `startDecryption` in
state `s0`, or `none` when the loop made fewer than `n` calls (the call before scheduled no
timer). -/
def afterCalls (p : Props) (rnd : Nat → Nat) (s0 : State) : Nat → Option State
  | 0 => some (startDecryption s0)
  | n + 1 =>
    match afterCalls p rnd s0 n with
    | none => none
    | some s => if s.animateDue then some (animate p rnd s) else none

/-- The run begun in `s0` makes exactly `n` calls of `animate` and ends in state `s`: the
`n`-th call happens and schedules no further one. -/
def StopsAfter (p : Props) (rnd : Nat → Nat) (s0 : State) (n : Nat) (s : State) : Prop :=
  afterCalls p rnd s0 n = some s ∧ s.animateDue = false ∧ s.isDecrypting = false

/-- A freshly mounted component: `displayText` is the text, nothing is running. -/
def mounted (p : Props) : State :=
  { displayText := p.text, isDecrypting := false, iterationCount := 0, revealedIndices := [],
    animateDue := false, randomCalls := 0 }

/-- The insertion order of `revealedIndices` after `n` calls of `animate`. -/
def revealedAfter (p : Props) (rnd : Nat → Nat) (s0 : State) (n : Nat) : Option (List Int) :=
  match afterCalls p rnd s0 n with
  | some s => some s.revealedIndices
  | none => none

/-- Whether a further call of `animate` is due after `n` calls. -/
def dueAfter (p : Props) (rnd : Nat → Nat) (s0 : State) (n : Nat) : Option Bool :=
  match afterCalls p rnd s0 n with
  | some s => some s.animateDue
  | none => none

/-- The default character pool of the component. -/
def defaultCharacters : List Char :=
  "ABCDEFGHIJKLMNOPQRSTUVWXYZabcdefghijklmnopqrstuvwxyz0123456789!@#$%^&*()".toList

/-- A one-character text revealed from the start, one scrambled frame per reveal. -/
def oneCharStart : Props :=
  { text := "a".toList, maxIterations := 1, characters := defaultCharacters,
    revealDirection := "start" }

/-- A three-character text revealed from the start, two scrambled frames per reveal. -/
def threeCharStart : Props :=
  { text := "abc".toList, maxIterations := 2, characters := defaultCharacters,
    revealDirection := "start" }

/-- A five-character text revealed from the center, one scrambled frame per reveal. -/
def fiveCharCenter : Props :=
  { text := "hello".toList, maxIterations := 1, characters := defaultCharacters,
    revealDirection := "center" }

/-- The random source that always draws the first character of the pool. -/
def firstCharDraws : Nat → Nat := fun _ => 0

/-- The number of calls of `animate` in a left-to-right run: a single call on the empty text,
`L * m + 2` calls on a text of length `L ≥ 1` with `maxIterations = m`. -/
def startRunCalls (p : Props) : Nat :=
  if p.text.length = 0 then 1 else p.text.length * p.maxIterations + 2

/-- The indices `0, 1, ..., k - 1` in this order. -/
def firstIndices (k : Nat) : List Int := (List.range k).map Int.ofNat

/-- The invariant of a left-to-right run: exactly the indices `0 .. k - 1` are revealed, the
iteration counter is `i`, and the loop is live. -/
def StartInv (k i : Nat) (s : State) : Prop :=
  s.revealedIndices = firstIndices k ∧ s.iterationCount = i ∧ s.animateDue = true ∧
    s.isDecrypting = true

end DecryptedText

namespace App

/-- The literal `youtube\.com\/watch\?v=` of the regular expression. -/
def watchPrefix : List Char := "youtube.com/watch?v=".toList

/-- The literal `youtu\.be\/` of the regular expression. -/
def shortPrefix : List Char := "youtu.be/".toList

/-- The character class `[a-zA-Z0-9_-]`. -/
def isIdChar (c : Char) : Bool :=
  ('a' ≤ c && c ≤ 'z') || ('A' ≤ c && c ≤ 'Z') || ('0' ≤ c && c ≤ '9') || c == '_' || c == '-'

/-- The capture group `([a-zA-Z0-9_-]{11})` tried at the head of `s`. -/
def matchId (s : List Char) : Option (List Char) :=
  if 11 ≤ s.length ∧ (s.take 11).all isIdChar = true then some (s.take 11) else none

/-- One literal followed by the capture group, tried at the head of `s`. -/
def matchAlternative (lit s : List Char) : Option (List Char) :=
  if lit.isPrefixOf s then matchId (s.drop lit.length) else none

/-- The whole expression `(?:youtube\.com\/watch\?v=|youtu\.be\/)([a-zA-Z0-9_-]{11})` tried at
the head of `s`: the alternatives are tried in order, the second one when the first one (with
the group after it) fails. -/
def matchHere (s : List Char) : Option (List Char) :=
  match matchAlternative watchPrefix s with
  | some id => some id
  | none => matchAlternative shortPrefix s

/-- The search of `url.match(regex)` (no `g` flag): the start positions are tried from left to
right and the first match wins; the result is the capture group `match[1]`. -/
def regexMatch : List Char → Option (List Char)
  | [] => matchHere []
  | c :: cs =>
    match matchHere (c :: cs) with
    | some id => some id
    | none => regexMatch cs

/-- The function `extractVideoId`: `match ? match[1] : null`. -/
def extractVideoId (url : List Char) : Option (List Char) :=
  match regexMatch url with
  | some id => some id
  | none => none

/-- Reading of the spec's words: at position `pos` the string contains `youtube.com/watch?v=`
or `youtu.be/` immediately followed by the 11 characters `id`, all from `[a-zA-Z0-9_-]`. -/
def IdOccurrence (url : List Char) (pos : Nat) (id : List Char) : Prop :=
  ∃ lit pre post, (lit = watchPrefix ∨ lit = shortPrefix) ∧ url = pre ++ (lit ++ (id ++ post)) ∧
    pre.length = pos ∧ id.length = 11 ∧ ∀ c ∈ id, isIdChar c = true

/-- The white space and line terminators removed by `String.prototype.trim`. -/
def isJsWhitespace (c : Char) : Bool :=
  let n := c.toNat
  n == 9 || n == 10 || n == 11 || n == 12 || n == 13 || n == 32 || n == 160 || n == 5760 ||
    (8192 ≤ n && n ≤ 8202) || n == 8232 || n == 8233 || n == 8239 || n == 8287 ||
    n == 12288 || n == 65279

/-- The method `String.prototype.trim`. -/
def trim (s : String) : String :=
  String.mk ((((s.toList.dropWhile isJsWhitespace).reverse).dropWhile isJsWhitespace).reverse)

/-- What the catch block reads of a rejected request: `error.code`, `error.response?.status`,
`error.response?.data?.error` and `error.message`. -/
structure RequestError where
  code : Option String
  responseStatus : Option Nat
  responseError : Option String
  message : String
deriving DecidableEq, Repr

/-- A byte-progress event of the transport: `loaded` and the possibly undefined `total`. -/
structure ProgressEvent where
  loaded : Nat
  total : Option Nat
deriving DecidableEq, Repr

/-- The state cells of `App` that `handleDownload` touches, and the liveness of its
two timers: `progressInterval` and the two-second `setTimeout` of the success path. -/
structure State where
  videoUrl : String
  title : String
  format : String
  loading : Bool
  progress : Int
  progressMessage : String
  downloadedBytes : Nat
  totalBytes : Nat
  message : String
  messageType : String
  videoInfo : Option String
  step : String
  progressInterval : Bool
  resetTimer : Bool
deriving DecidableEq, Repr

/-- The synchronous start of `handleDownload`, up to the creation of `progressInterval` and the
sending of the request. With a blank title nothing is started. -/
def handleDownloadStart (s : State) : State :=
  if trim s.title = "" then
    { s with message := "Please enter a filename", messageType := "error" }
  else
    { s with
      loading := true
      progress := 1
      downloadedBytes := 0
      totalBytes := 0
      progressMessage := "Processing"
      message := ""
      progressInterval := true }

/-- The updater of the simulated tick: `prev < 30 ? Math.floor(prev + Math.random() * 5) : prev`,
with `r` the value of `Math.random()`. -/
def simulatedProgress (prev : Int) (r : ℚ) : Int :=
  if prev < 30 then ⌊(prev : ℚ) + r * 5⌋ else prev

/-- One firing of `progressInterval` (every 300 ms while it is live). -/
def intervalTick (r : ℚ) (s : State) : State :=
  if s.progressInterval then { s with progress := simulatedProgress s.progress r } else s

/-- The quantity `downloadPercent = Math.round((downloaded * 100) / total)`. -/
def downloadPercent (downloaded total : Nat) : Int :=
  ⌊(((downloaded * 100 : Nat) : ℚ) / (total : ℚ)) + 1 / 2⌋

/-- The quantity `mappedPercent = Math.floor(30 + (downloadPercent * 0.69))`. -/
def mappedPercent (dp : Int) : Int :=
  ⌊(30 : ℚ) + (dp : ℚ) * 0.69⌋

/-- The callback `onDownloadProgress`. -/
def onDownloadProgress (ev : ProgressEvent) (s : State) : State :=
  let s1 := { s with progressInterval := false }
  let downloaded := ev.loaded
  let total := ev.total.getD 0
  let s2 := { s1 with downloadedBytes := downloaded, totalBytes := total }
  if total ≠ 0 then
    { s2 with
      progress := min (mappedPercent (downloadPercent downloaded total)) 99
      progressMessage :=
        if downloadPercent downloaded total < 50 then "Downloading..." else "Finalizing..." }
  else s2

/-- The rest of the `try` block once the request has resolved: the timer is cleared, the
percent forced to 100, the file saved, the success message set and the delayed reset armed. -/
def successBody (s : State) : State :=
  { s with
    progressInterval := false
    progress := 100
    message := "Download complete! File: " ++ trim s.title ++ "." ++ s.format
    messageType := "success"
    resetTimer := true }

/-- The `catch` block. -/
def catchBlock (err : RequestError) (s : State) : State :=
  let s1 : State :=
    if err.code = some "ERR_NETWORK" then
      { s with message := "Cannot connect to server. Make sure the API server is running." }
    else if err.responseStatus = some 429 then
      { s with
        message := "Too many requests. Please wait a moment and try again."
        messageType := "warning" }
    else
      { s with
        message := "Error: " ++
          (match err.responseError with
           | some e => if e = "" then err.message else e
           | none => err.message) }
  { s1 with messageType := "error" }

/-- The `finally` block. -/
def finallyBlock (s : State) : State :=
  { s with loading := false, progress := 0, progressMessage := "", downloadedBytes := 0,
           totalBytes := 0 }

/-- The handler's continuation when the request resolves. -/
def handleSuccess (s : State) : State := finallyBlock (successBody s)

/-- The handler's continuation when the request rejects. -/
def handleFailure (err : RequestError) (s : State) : State := finallyBlock (catchBlock err s)

/-- The callback of the two-second `setTimeout` of the success path. -/
def delayedReset (s : State) : State :=
  if s.resetTimer then
    { s with
      resetTimer := false
      progress := 0
      progressMessage := ""
      downloadedBytes := 0
      totalBytes := 0
      videoUrl := ""
      title := ""
      format := "mp4"
      videoInfo := none
      step := "url" }
  else s

/-- The simulated ticks fired one after the other with the given draws of `Math.random()`. -/
def runTicks : List ℚ → State → State
  | [], s => s
  | r :: rs, s => runTicks rs (intervalTick r s)

/-- The byte-progress events handled one after the other. -/
def runEvents : List ProgressEvent → State → State
  | [], s => s
  | e :: es, s => runEvents es (onDownloadProgress e s)

/-- The percents shown after each simulated tick. -/
def tickTrace : List ℚ → State → List Int
  | [], _ => []
  | r :: rs, s => (intervalTick r s).progress :: tickTrace rs (intervalTick r s)

/-- The percents shown after each byte-progress event. -/
def eventTrace : List ProgressEvent → State → List Int
  | [], _ => []
  | e :: es, s => (onDownloadProgress e s).progress :: eventTrace es (onDownloadProgress e s)

/-- The percents shown over a successful run from the state `s` in which the form is submitted:
after the start, after each simulated tick, after each byte-progress event, and when the
resolved request forces 100. -/
def percentTrace (draws : List ℚ) (events : List ProgressEvent) (s : State) : List Int :=
  let s1 := handleDownloadStart s
  let s2 := runTicks draws s1
  let s3 := runEvents events s2
  s1.progress :: (tickTrace draws s1 ++ (eventTrace events s2 ++ [(successBody s3).progress]))

/-- The first byte-progress event does not lower the percent reached by the simulated ticks. -/
def HandOffOk (draws : List ℚ) (events : List ProgressEvent) (s : State) : Prop :=
  match events with
  | [] => True
  | e :: _ =>
    (runTicks draws (handleDownloadStart s)).progress ≤
      (onDownloadProgress e (runTicks draws (handleDownloadStart s))).progress

/-- The events of one transfer: the same positive `total` in each, `loaded` never decreasing and
never above `total`. -/
def TransferEvents (total : Nat) : List ProgressEvent → Prop
  | [] => True
  | e :: es =>
    e.total = some total ∧ e.loaded ≤ total ∧ (∀ e2 ∈ es, e.loaded ≤ e2.loaded) ∧
      TransferEvents total es

/-- Reading of the spec's words, rounding to the nearest integer, halves upwards. -/
def specRound (x : ℚ) : Int := ⌊x + 1 / 2⌋

/-- Reading of the spec's words: `min(99, floor(30 + round(loaded*100/total) * 0.69))`. -/
def specPercent (loaded total : Nat) : Int :=
  min 99 ⌊(30 : ℚ) + (specRound ((loaded : ℚ) * 100 / (total : ℚ)) : ℚ) * 0.69⌋

/-- The message literals of `onDownloadProgress`, chosen as the spec words it: the first below
50, the second otherwise. -/
def specMessage (loaded total : Nat) : String :=
  if specRound ((loaded : ℚ) * 100 / (total : ℚ)) < 50 then "Downloading..." else "Finalizing..."

/-- A form filled in and ready to be submitted. -/
def readyForm : State :=
  { videoUrl := "https://youtu.be/dQw4w9WgXcQ", title := "clip", format := "mp4",
    loading := false, progress := 0, progressMessage := "", downloadedBytes := 0,
    totalBytes := 0, message := "", messageType := "", videoInfo := some "clip",
    step := "download", progressInterval := false, resetTimer := false }

/-- A rejection at transport level, before any byte arrived. -/
def networkError : RequestError :=
  { code := some "ERR_NETWORK", responseStatus := none, responseError := none,
    message := "Network Error" }

/-- A rejection with HTTP status 429. -/
def rateLimited : RequestError :=
  { code := some "ERR_BAD_REQUEST", responseStatus := some 429, responseError := none,
    message := "Request failed with status code 429" }

end App

namespace DecryptedText

theorem mid_eq_floor (n : Nat) : ((n / 2 : Nat) : Int) = ⌊(n : ℚ) / 2⌋ := by
  symm
  rw [Int.floor_eq_iff]
  have h := Nat.div_add_mod n 2
  have h2 : n % 2 < 2 := Nat.mod_lt _ (by norm_num)
  have hq : (n : ℚ) = 2 * ((n / 2 : Nat) : ℚ) + ((n % 2 : Nat) : ℚ) := by exact_mod_cast h.symm
  have h3 : ((n % 2 : Nat) : ℚ) < 2 := by exact_mod_cast h2
  have h4 : (0 : ℚ) ≤ ((n % 2 : Nat) : ℚ) := Nat.cast_nonneg _
  simp only [Int.cast_natCast]
  constructor <;> linarith

theorem distance_eq_ceil (n : Nat) : (((n + 1 + 1) / 2 : Nat) : Int) = ⌈((n : ℚ) + 1) / 2⌉ := by
  symm
  rw [Int.ceil_eq_iff]
  have h := Nat.div_add_mod (n + 1 + 1) 2
  have h2 : (n + 1 + 1) % 2 < 2 := Nat.mod_lt _ (by norm_num)
  have hq : ((n : ℚ) + 1 + 1) =
      2 * (((n + 1 + 1) / 2 : Nat) : ℚ) + (((n + 1 + 1) % 2 : Nat) : ℚ) := by
    exact_mod_cast h.symm
  have h3 : (((n + 1 + 1) % 2 : Nat) : ℚ) < 2 := by exact_mod_cast h2
  have h4 : (0 : ℚ) ≤ (((n + 1 + 1) % 2 : Nat) : ℚ) := Nat.cast_nonneg _
  have h5 : (((n + 1 + 1) % 2 : Nat) : ℚ) ≤ 1 := by
    exact_mod_cast (by omega : (n + 1 + 1) % 2 ≤ 1)
  simp only [Int.cast_natCast]
  constructor <;> linarith

theorem mem_firstIndices (j k : Nat) : ((j : Int) ∈ firstIndices k) ↔ j < k := by
  simp [firstIndices]

theorem firstIndices_succ (k : Nat) : firstIndices (k + 1) = firstIndices k ++ [(k : Int)] := by
  simp [firstIndices, List.range_succ]

theorem length_firstIndices (k : Nat) : (firstIndices k).length = k := by
  simp [firstIndices]

theorem setAdd_firstIndices (k : Nat) : setAdd (firstIndices k) (k : Int) = firstIndices (k + 1) := by
  have h : ¬ ((k : Int) ∈ firstIndices k) := by
    rw [mem_firstIndices]; exact Nat.lt_irrefl k
  simp [setAdd, h, firstIndices_succ]

theorem render_revealed (p : Props) (rnd : Nat → Nat) (revealed : List Int) :
    ∀ (cs : List Char) (i k : Nat),
      (∀ j, i ≤ j → j < i + cs.length → (j : Int) ∈ revealed) →
      render p rnd revealed i k cs = (cs, k) := by
  intro cs
  induction cs with
  | nil => intro i k _; rfl
  | cons c cs ih =>
    intro i k h
    have hi : (i : Int) ∈ revealed := h i (Nat.le_refl i) (by simp)
    have hrest := ih (i + 1) k (fun j h1 h2 => h j (by omega) (by simp; omega))
    simp [render, hi, hrest]

theorem indexToReveal_start (p : Props) (hdir : p.revealDirection ≠ "center") (n : Nat) :
    indexToReveal p n = (n : Int) := by
  simp [indexToReveal, hdir]

theorem animate_done (p : Props) (rnd : Nat → Nat) (s : State)
    (h : p.text.length ≤ s.revealedIndices.length) :
    animate p rnd s =
      { s with displayText := p.text, isDecrypting := false, animateDue := false } := by
  simp [animate, h]

theorem animate_hold (p : Props) (rnd : Nat → Nat) (s : State) (k i : Nat)
    (hinv : StartInv k i s) (hk : k < p.text.length) (hi : i < p.maxIterations) :
    StartInv k (i + 1) (animate p rnd s) := by
  obtain ⟨h1, h2, h3, h4⟩ := hinv
  have hnot : ¬ (p.text.length ≤ k) := by omega
  have hnot2 : ¬ (p.maxIterations ≤ i) := by omega
  simp [animate, StartInv, h1, h2, h4, length_firstIndices, hnot, hnot2]

theorem animate_reveal (p : Props) (rnd : Nat → Nat) (s : State) (k i : Nat)
    (hdir : p.revealDirection ≠ "center")
    (hinv : StartInv k i s) (hk : k < p.text.length) (hi : p.maxIterations ≤ i) :
    StartInv (k + 1) 1 (animate p rnd s) := by
  obtain ⟨h1, h2, h3, h4⟩ := hinv
  have hnot : ¬ (p.text.length ≤ k) := by omega
  simp [animate, StartInv, h1, h2, h4, length_firstIndices, hnot, hi, hk,
    indexToReveal_start p hdir, setAdd_firstIndices]

theorem animate_frame_of_all_revealed (p : Props) (rnd : Nat → Nat) (s : State) (i : Nat)
    (hdir : p.revealDirection ≠ "center")
    (hinv : StartInv (p.text.length - 1) i s) (hL : 1 ≤ p.text.length)
    (hi : p.maxIterations ≤ i) :
    (animate p rnd s).displayText = p.text := by
  obtain ⟨h1, h2, h3, h4⟩ := hinv
  have hnot : ¬ (p.text.length ≤ p.text.length - 1) := by omega
  have hk : p.text.length - 1 < p.text.length := by omega
  have hsucc : p.text.length - 1 + 1 = p.text.length := by omega
  have hr := render_revealed p rnd (firstIndices p.text.length) p.text 0 s.randomCalls
    (fun j _ hj => (mem_firstIndices j _).2 (by omega))
  simp [animate, h1, h2, length_firstIndices, hnot, hi, hk, indexToReveal_start p hdir,
    setAdd_firstIndices, hsucc, hr]

theorem animate_fields_hold (p : Props) (rnd : Nat → Nat) (s : State)
    (hL : s.revealedIndices.length < p.text.length) (hi : s.iterationCount < p.maxIterations) :
    (animate p rnd s).revealedIndices = s.revealedIndices ∧
      (animate p rnd s).iterationCount = s.iterationCount + 1 ∧
      (animate p rnd s).animateDue = true ∧
      (animate p rnd s).isDecrypting = s.isDecrypting := by
  have hnot : ¬ (p.text.length ≤ s.revealedIndices.length) := by omega
  have hnot2 : ¬ (p.maxIterations ≤ s.iterationCount) := by omega
  simp [animate, hnot, hnot2]

theorem animate_fields_reveal (p : Props) (rnd : Nat → Nat) (s : State)
    (hL : s.revealedIndices.length < p.text.length) (hi : p.maxIterations ≤ s.iterationCount) :
    (animate p rnd s).revealedIndices =
        (if indexToReveal p s.revealedIndices.length < (p.text.length : Int) then
          setAdd s.revealedIndices (indexToReveal p s.revealedIndices.length)
        else s.revealedIndices) ∧
      (animate p rnd s).iterationCount = 1 ∧
      (animate p rnd s).animateDue = true ∧
      (animate p rnd s).isDecrypting = s.isDecrypting := by
  have hnot : ¬ (p.text.length ≤ s.revealedIndices.length) := by omega
  simp [animate, hnot, hi]

theorem afterCalls_succ (p : Props) (rnd : Nat → Nat) (s0 s : State) (n : Nat)
    (h : afterCalls p rnd s0 n = some s) (hd : s.animateDue = true) :
    afterCalls p rnd s0 (n + 1) = some (animate p rnd s) := by
  simp [afterCalls, h, hd]

theorem afterCalls_stopped (p : Props) (rnd : Nat → Nat) (s0 s : State) (n : Nat)
    (h : afterCalls p rnd s0 n = some s) (hd : s.animateDue = false) :
    afterCalls p rnd s0 (n + 1) = none := by
  simp [afterCalls, h, hd]

theorem afterCalls_due_of_succ (p : Props) (rnd : Nat → Nat) (s0 s : State) (n : Nat)
    (h : afterCalls p rnd s0 (n + 1) = some s) :
    ∃ t, afterCalls p rnd s0 n = some t ∧ t.animateDue = true := by
  cases ht : afterCalls p rnd s0 n with
  | none => simp [afterCalls, ht] at h
  | some t =>
    cases hd : t.animateDue with
    | false => simp [afterCalls, ht, hd] at h
    | true => exact ⟨t, rfl, hd⟩

/-- A call that happens was due: before the `n`-th call of a run, every smaller number of
calls left a further call due. -/
theorem dueAfter_of_later (p : Props) (rnd : Nat → Nat) (s0 : State) :
    ∀ (n : Nat) (s : State), afterCalls p rnd s0 n = some s →
      ∀ j, j < n → dueAfter p rnd s0 j = some true := by
  intro n
  induction n with
  | zero => intro s _ j hj; omega
  | succ n ih =>
    intro s hs j hj
    obtain ⟨t, ht, hd⟩ := afterCalls_due_of_succ p rnd s0 s n hs
    rcases Nat.lt_succ_iff_lt_or_eq.1 hj with hlt | heq
    · exact ih t ht j hlt
    · subst heq
      simp [dueAfter, ht, hd]

theorem startInv_startDecryption (s0 : State) (h0 : s0.isDecrypting = false) :
    StartInv 0 0 (startDecryption s0) := by
  simp [startDecryption, h0, StartInv, firstIndices]

/-- Inside the `k`-th block of a left-to-right run: the calls `k * m + 1, ..., k * m + m` all
see exactly `0 .. k - 1` revealed. -/
theorem start_block (p : Props) (rnd : Nat → Nat) (s0 : State) (k : Nat)
    (hk : k < p.text.length)
    (h1 : ∃ s, afterCalls p rnd s0 (k * p.maxIterations + 1) = some s ∧ StartInv k 1 s) :
    ∀ i, 1 ≤ i → i ≤ p.maxIterations →
      ∃ s, afterCalls p rnd s0 (k * p.maxIterations + i) = some s ∧ StartInv k i s := by
  intro i
  induction i with
  | zero => intro h; omega
  | succ i ih =>
    intro _ hle
    rcases Nat.eq_zero_or_pos i with hi0 | hipos
    · subst hi0; exact h1
    · obtain ⟨s, hs, hinv⟩ := ih hipos (by omega)
      refine ⟨animate p rnd s, ?_, animate_hold p rnd s k i hinv hk (by omega)⟩
      exact afterCalls_succ p rnd s0 s _ hs hinv.2.2.1

/-- The first call of every block of a left-to-right run: call `k * m + 1` is the one that
reveals index `k - 1`, and the frame of call `L * m + 1` is the text itself. -/
theorem start_first (p : Props) (rnd : Nat → Nat) (s0 : State)
    (hdir : p.revealDirection ≠ "center") (hL : 1 ≤ p.text.length)
    (hm : 1 ≤ p.maxIterations) (h0 : s0.isDecrypting = false) :
    ∀ k, k ≤ p.text.length →
      ∃ s, afterCalls p rnd s0 (k * p.maxIterations + 1) = some s ∧ StartInv k 1 s ∧
        (k = p.text.length → s.displayText = p.text) := by
  intro k
  induction k with
  | zero =>
    intro _
    have hinv := startInv_startDecryption s0 h0
    refine ⟨animate p rnd (startDecryption s0), ?_, ?_, ?_⟩
    · simpa using afterCalls_succ p rnd s0 (startDecryption s0) 0 rfl hinv.2.2.1
    · exact animate_hold p rnd _ 0 0 hinv (by omega) (by omega)
    · intro h; omega
  | succ k ih =>
    intro hk
    obtain ⟨s1, hs1, hinv1, _⟩ := ih (by omega)
    obtain ⟨s, hs, hinv⟩ :=
      start_block p rnd s0 k (by omega) ⟨s1, hs1, hinv1⟩ p.maxIterations hm (Nat.le_refl _)
    have hcall : afterCalls p rnd s0 ((k + 1) * p.maxIterations + 1) = some (animate p rnd s) := by
      have := afterCalls_succ p rnd s0 s _ hs hinv.2.2.1
      rw [Nat.succ_mul]
      exact this
    refine ⟨animate p rnd s, hcall, ?_, ?_⟩
    · exact animate_reveal p rnd s k _ hdir hinv (by omega) (Nat.le_refl _)
    · intro hkL
      have hk1 : k = p.text.length - 1 := by omega
      subst hk1
      exact animate_frame_of_all_revealed p rnd s _ hdir hinv hL (Nat.le_refl _)

/-- The last call of a left-to-right run on a non-empty text is call `L * m + 2`. -/
theorem start_last (p : Props) (rnd : Nat → Nat) (s0 : State)
    (hdir : p.revealDirection ≠ "center") (hL : 1 ≤ p.text.length)
    (hm : 1 ≤ p.maxIterations) (h0 : s0.isDecrypting = false) :
    ∃ s, StopsAfter p rnd s0 (p.text.length * p.maxIterations + 2) s ∧
      s.displayText = p.text := by
  obtain ⟨s, hs, hinv, _⟩ := start_first p rnd s0 hdir hL hm h0 p.text.length (Nat.le_refl _)
  have hlen : p.text.length ≤ s.revealedIndices.length := by
    rw [hinv.1, length_firstIndices]
  have hcall := afterCalls_succ p rnd s0 s _ hs hinv.2.2.1
  rw [animate_done p rnd s hlen] at hcall
  exact ⟨_, ⟨hcall, rfl, rfl⟩, rfl⟩

/-- On the empty text the very first call of `animate` ends the run. -/
theorem empty_run (p : Props) (rnd : Nat → Nat) (s0 : State)
    (hL : p.text.length = 0) (h0 : s0.isDecrypting = false) :
    ∃ s, StopsAfter p rnd s0 1 s ∧ s.displayText = p.text := by
  have hinv := startInv_startDecryption s0 h0
  have hlen : p.text.length ≤ (startDecryption s0).revealedIndices.length := by omega
  have hcall := afterCalls_succ p rnd s0 (startDecryption s0) 0 rfl hinv.2.2.1
  rw [animate_done p rnd _ hlen] at hcall
  exact ⟨_, ⟨hcall, rfl, rfl⟩, rfl⟩

theorem indexToReveal_center_five (p : Props) (hL : p.text.length = 5)
    (hdir : p.revealDirection = "center") :
    indexToReveal p 0 = 3 ∧ indexToReveal p 1 = 1 ∧ indexToReveal p 2 = 4 ∧
      indexToReveal p 3 = 0 ∧ indexToReveal p 4 = 4 := by
  simp [indexToReveal, hL, hdir]

/-- With five characters and the center direction, a call that reveals turns the revealed list
`r` into `r'` whenever the chosen index yields `r'`. -/
theorem center_five_reveal (p : Props) (rnd : Nat → Nat) (s : State) (r r' : List Int)
    (hL : p.text.length = 5) (hm : p.maxIterations = 1)
    (hr : s.revealedIndices = r) (hlen : r.length < 5) (hit : s.iterationCount = 1)
    (hdue : s.isDecrypting = true)
    (hnext : (if indexToReveal p r.length < 5 then setAdd r (indexToReveal p r.length) else r)
      = r') :
    (animate p rnd s).revealedIndices = r' ∧ (animate p rnd s).iterationCount = 1 ∧
      (animate p rnd s).animateDue = true ∧ (animate p rnd s).isDecrypting = true := by
  have h := animate_fields_reveal p rnd s (by rw [hr, hL]; exact hlen) (by rw [hm, hit])
  rw [hr, hL] at h
  refine ⟨?_, h.2.1, h.2.2.1, ?_⟩
  · rw [h.1]; exact_mod_cast hnext
  · rw [h.2.2.2, hdue]

theorem center_five_first_calls (p : Props) (rnd : Nat → Nat) (s0 : State)
    (hL : p.text.length = 5) (hm : p.maxIterations = 1) (hdir : p.revealDirection = "center")
    (h0 : s0.isDecrypting = false) :
    (∃ s, afterCalls p rnd s0 1 = some s ∧ s.revealedIndices = [] ∧ s.iterationCount = 1 ∧
      s.animateDue = true ∧ s.isDecrypting = true) ∧
    (∃ s, afterCalls p rnd s0 2 = some s ∧ s.revealedIndices = [3] ∧ s.iterationCount = 1 ∧
      s.animateDue = true ∧ s.isDecrypting = true) ∧
    (∃ s, afterCalls p rnd s0 3 = some s ∧ s.revealedIndices = [3, 1] ∧ s.iterationCount = 1 ∧
      s.animateDue = true ∧ s.isDecrypting = true) ∧
    (∃ s, afterCalls p rnd s0 4 = some s ∧ s.revealedIndices = [3, 1, 4] ∧
      s.iterationCount = 1 ∧ s.animateDue = true ∧ s.isDecrypting = true) ∧
    (∃ s, afterCalls p rnd s0 5 = some s ∧ s.revealedIndices = [3, 1, 4, 0] ∧
      s.iterationCount = 1 ∧ s.animateDue = true ∧ s.isDecrypting = true) := by
  obtain ⟨i0, i1, i2, i3, _⟩ := indexToReveal_center_five p hL hdir
  have hinv := startInv_startDecryption s0 h0
  have c1 : ∃ s, afterCalls p rnd s0 1 = some s ∧ s.revealedIndices = [] ∧
      s.iterationCount = 1 ∧ s.animateDue = true ∧ s.isDecrypting = true := by
    have hf := animate_fields_hold p rnd (startDecryption s0)
      (by rw [hinv.1, hL]; simp [firstIndices]) (by rw [hinv.2.1, hm]; exact Nat.one_pos)
    refine ⟨_, afterCalls_succ p rnd s0 _ 0 rfl hinv.2.2.1, ?_, ?_, hf.2.2.1, ?_⟩
    · rw [hf.1, hinv.1]; rfl
    · rw [hf.2.1, hinv.2.1]
    · rw [hf.2.2.2, hinv.2.2.2]
  obtain ⟨s1, e1, r1, t1, d1, g1⟩ := c1
  have f2 := center_five_reveal p rnd s1 [] [3] hL hm r1 (by decide) t1 g1
    (by simp [i0, setAdd])
  have e2 := afterCalls_succ p rnd s0 s1 1 e1 d1
  have f3 := center_five_reveal p rnd _ [3] [3, 1] hL hm f2.1 (by decide) f2.2.1 f2.2.2.2
    (by simp [i1, setAdd])
  have e3 := afterCalls_succ p rnd s0 _ 2 e2 f2.2.2.1
  have f4 := center_five_reveal p rnd _ [3, 1] [3, 1, 4] hL hm f3.1 (by decide) f3.2.1
    f3.2.2.2 (by simp [i2, setAdd])
  have e4 := afterCalls_succ p rnd s0 _ 3 e3 f3.2.2.1
  have f5 := center_five_reveal p rnd _ [3, 1, 4] [3, 1, 4, 0] hL hm f4.1 (by decide) f4.2.1
    f4.2.2.2 (by simp [i3, setAdd])
  have e5 := afterCalls_succ p rnd s0 _ 4 e4 f4.2.2.1
  exact ⟨⟨s1, e1, r1, t1, d1, g1⟩, ⟨_, e2, f2⟩, ⟨_, e3, f3⟩, ⟨_, e4, f4⟩, ⟨_, e5, f5⟩⟩

theorem center_five_stuck (p : Props) (rnd : Nat → Nat) (s0 : State)
    (hL : p.text.length = 5) (hm : p.maxIterations = 1) (hdir : p.revealDirection = "center")
    (h0 : s0.isDecrypting = false) (n : Nat) :
    ∃ s, afterCalls p rnd s0 (n + 5) = some s ∧ s.revealedIndices = [3, 1, 4, 0] ∧
      s.iterationCount = 1 ∧ s.animateDue = true ∧ s.isDecrypting = true := by
  induction n with
  | zero => simpa using (center_five_first_calls p rnd s0 hL hm hdir h0).2.2.2.2
  | succ n ih =>
    obtain ⟨s, e, r, t, d, g⟩ := ih
    obtain ⟨_, _, _, _, i4⟩ := indexToReveal_center_five p hL hdir
    have f := center_five_reveal p rnd s [3, 1, 4, 0] [3, 1, 4, 0] hL hm r (by decide) t g
      (by simp [i4, setAdd])
    exact ⟨_, afterCalls_succ p rnd s0 s _ e d, f⟩

/-- C10. With a reveal direction other than `center`, a text of length `L ≥ 1` and
`maxIterations = m ≥ 1`, whatever the random characters: the calls `k * m + 1, ..., k * m + m`
of `animate` end with exactly the indices `0 .. k - 1` revealed (so the `k`-th reveal, of index
`k - 1`, happens on call `1 + k * m`); the frame of call `1 + L * m` is the text; call
`L * m + 2` sets `displayText` to the text, clears `isDecrypting` and schedules nothing, and
there is no call `L * m + 3`. -/
theorem start_run_schedule (p : Props) (rnd : Nat → Nat) (s0 : State)
    (hdir : p.revealDirection ≠ "center") (hL : 1 ≤ p.text.length)
    (hm : 1 ≤ p.maxIterations) (h0 : s0.isDecrypting = false) :
    (∀ k i, k < p.text.length → 1 ≤ i → i ≤ p.maxIterations →
      ∃ s, afterCalls p rnd s0 (k * p.maxIterations + i) = some s ∧
        s.revealedIndices = firstIndices k ∧ s.animateDue = true ∧ s.isDecrypting = true) ∧
    (∃ s, afterCalls p rnd s0 (p.text.length * p.maxIterations + 1) = some s ∧
        s.revealedIndices = firstIndices p.text.length ∧ s.displayText = p.text ∧
        s.animateDue = true ∧ s.isDecrypting = true) ∧
    (∃ s, StopsAfter p rnd s0 (p.text.length * p.maxIterations + 2) s ∧
        s.displayText = p.text) ∧
    afterCalls p rnd s0 (p.text.length * p.maxIterations + 3) = none := by
  refine ⟨?_, ?_, start_last p rnd s0 hdir hL hm h0, ?_⟩
  · intro k i hk hi1 him
    obtain ⟨s1, hs1, hinv1, _⟩ := start_first p rnd s0 hdir hL hm h0 k (by omega)
    obtain ⟨s, hs, hinv⟩ := start_block p rnd s0 k hk ⟨s1, hs1, hinv1⟩ i hi1 him
    exact ⟨s, hs, hinv.1, hinv.2.2.1, hinv.2.2.2⟩
  · obtain ⟨s, hs, hinv, hd⟩ :=
      start_first p rnd s0 hdir hL hm h0 p.text.length (Nat.le_refl _)
    exact ⟨s, hs, hinv.1, hd rfl, hinv.2.2.1, hinv.2.2.2⟩
  · obtain ⟨s, ⟨hs, hdue, _⟩, _⟩ := start_last p rnd s0 hdir hL hm h0
    exact afterCalls_stopped p rnd s0 s _ hs hdue

/-- Witness of `start_run_schedule`: the text `abc` with two frames per reveal makes exactly
`3 * 2 + 2 = 8` calls. -/
theorem start_run_schedule_witness :
    ∃ s, StopsAfter threeCharStart firstCharDraws (mounted threeCharStart) 8 s ∧
      s.displayText = "abc".toList :=
  (start_run_schedule threeCharStart firstCharDraws (mounted threeCharStart)
    (by decide) (by decide) (by decide) rfl).2.2.1

/-- C1, as amended. With a reveal direction other than `center` and `maxIterations = m ≥ 1`, a
run on a text of length `L` makes exactly `L * m + 2` calls of `animate` when the text is not
empty and exactly one call when it is empty: that call happens, it leaves `displayText` equal to
the text, clears `isDecrypting` and schedules nothing, and after every smaller number of calls
a further call is due. The number of calls is thus at most `L * m + 2`, and at most
`L * (m + 1)` as soon as `L ≥ 2`, whatever the random characters. -/
theorem start_run_terminates (p : Props) (rnd : Nat → Nat) (s0 : State)
    (hdir : p.revealDirection ≠ "center") (hm : 1 ≤ p.maxIterations)
    (h0 : s0.isDecrypting = false) :
    (∃ s, StopsAfter p rnd s0 (startRunCalls p) s ∧ s.displayText = p.text) ∧
    (∀ j, j < startRunCalls p → dueAfter p rnd s0 j = some true) ∧
    (1 ≤ p.text.length → startRunCalls p = p.text.length * p.maxIterations + 2) ∧
    (p.text.length = 0 → startRunCalls p = 1) ∧
    startRunCalls p ≤ p.text.length * p.maxIterations + 2 ∧
    (2 ≤ p.text.length → startRunCalls p ≤ p.text.length * (p.maxIterations + 1)) := by
  have hstop : ∃ s, StopsAfter p rnd s0 (startRunCalls p) s ∧ s.displayText = p.text := by
    rcases Nat.eq_zero_or_pos p.text.length with hz | hpos
    · have hc : startRunCalls p = 1 := by simp [startRunCalls, hz]
      rw [hc]
      exact empty_run p rnd s0 hz h0
    · have hc : startRunCalls p = p.text.length * p.maxIterations + 2 := by
        have hne : p.text.length ≠ 0 := by omega
        simp [startRunCalls, hne]
      rw [hc]
      exact start_last p rnd s0 hdir hpos hm h0
  refine ⟨hstop, ?_, ?_, ?_, ?_, ?_⟩
  · obtain ⟨s, ⟨hs, _, _⟩, _⟩ := hstop
    intro j hj
    exact dueAfter_of_later p rnd s0 (startRunCalls p) s hs j hj
  · intro hpos
    have hne : p.text.length ≠ 0 := by omega
    simp [startRunCalls, hne]
  · intro hz
    simp [startRunCalls, hz]
  · unfold startRunCalls
    split <;> omega
  · intro h2
    have hne : p.text.length ≠ 0 := by omega
    simp only [startRunCalls, hne, if_false]
    rw [Nat.mul_add, Nat.mul_one]
    omega

/-- Witness of `start_run_terminates` on the text `abc` with two frames per reveal: exactly
eight calls. -/
theorem start_run_terminates_witness :
    (∃ s, StopsAfter threeCharStart firstCharDraws (mounted threeCharStart) 8 s ∧
      s.displayText = "abc".toList) ∧
    (∀ j, j < 8 → dueAfter threeCharStart firstCharDraws (mounted threeCharStart) j =
      some true) :=
  ⟨(start_run_terminates threeCharStart firstCharDraws (mounted threeCharStart)
      (by decide) (by decide) rfl).1,
   (start_run_terminates threeCharStart firstCharDraws (mounted threeCharStart)
      (by decide) (by decide) rfl).2.1⟩

/-- C1, counterexample. The one-character text `a`, direction `start`, `maxIterations = 1`:
the run makes three calls of `animate` (scramble, reveal, detect completion), and no run of at
most `1 * (1 + 1) = 2` calls stops. -/
theorem one_char_run_exceeds_bound :
    StopsAfter oneCharStart firstCharDraws (mounted oneCharStart) 3
        { displayText := "a".toList, isDecrypting := false, iterationCount := 1,
          revealedIndices := [0], animateDue := false, randomCalls := 1 } ∧
      dueAfter oneCharStart firstCharDraws (mounted oneCharStart) 0 = some true ∧
      dueAfter oneCharStart firstCharDraws (mounted oneCharStart) 1 = some true ∧
      dueAfter oneCharStart firstCharDraws (mounted oneCharStart) 2 = some true ∧
      ¬ (3 ≤ oneCharStart.text.length * (oneCharStart.maxIterations + 1)) := by
  refine ⟨⟨by decide, rfl, rfl⟩, by decide, by decide, by decide, by decide⟩

/-- C9, the code at the claim's input. With direction `center`, a text of length 5 and
`maxIterations = 1`, whatever the random characters: the indices are added in the order
`3, 1, 4, 0` (calls 2 to 5), index 2 is never added, and every later call finds the same four
indices and schedules the next call, so the run never ends. -/
theorem center_five_reveal_order (p : Props) (rnd : Nat → Nat) (s0 : State)
    (hL : p.text.length = 5) (hm : p.maxIterations = 1) (hdir : p.revealDirection = "center")
    (h0 : s0.isDecrypting = false) :
    revealedAfter p rnd s0 1 = some [] ∧
    revealedAfter p rnd s0 2 = some [3] ∧
    revealedAfter p rnd s0 3 = some [3, 1] ∧
    revealedAfter p rnd s0 4 = some [3, 1, 4] ∧
    ∀ n, revealedAfter p rnd s0 (n + 5) = some [3, 1, 4, 0] ∧
      dueAfter p rnd s0 (n + 5) = some true := by
  obtain ⟨⟨s1, e1, r1, _⟩, ⟨s2, e2, r2, _⟩, ⟨s3, e3, r3, _⟩, ⟨s4, e4, r4, _⟩, _⟩ :=
    center_five_first_calls p rnd s0 hL hm hdir h0
  refine ⟨by simp [revealedAfter, e1, r1], by simp [revealedAfter, e2, r2],
    by simp [revealedAfter, e3, r3], by simp [revealedAfter, e4, r4], ?_⟩
  intro n
  obtain ⟨s, e, r, _, d, _⟩ := center_five_stuck p rnd s0 hL hm hdir h0 n
  exact ⟨by simp [revealedAfter, e, r], by simp [dueAfter, e, d]⟩

/-- Witness of `center_five_reveal_order` on the text `hello`: after 105 calls the revealed
indices are still `3, 1, 4, 0` and a further call is due. -/
theorem center_five_reveal_order_witness :
    revealedAfter fiveCharCenter firstCharDraws (mounted fiveCharCenter) (100 + 5) =
        some [3, 1, 4, 0] ∧
      dueAfter fiveCharCenter firstCharDraws (mounted fiveCharCenter) (100 + 5) = some true :=
  (center_five_reveal_order fiveCharCenter firstCharDraws (mounted fiveCharCenter)
    (by decide) (by decide) (by decide) rfl).2.2.2.2 100

end DecryptedText

namespace App

theorem downloadPercent_eq_specRound (loaded total : Nat) :
    downloadPercent loaded total = specRound ((loaded : ℚ) * 100 / (total : ℚ)) := by
  simp [downloadPercent, specRound]

/-- In integer arithmetic `Math.round(loaded * 100 / total)` is
`(200 * loaded + total) / (2 * total)`. -/
theorem downloadPercent_eq_div (loaded total : Nat) (ht : 0 < total) :
    downloadPercent loaded total = (((200 * loaded + total) / (2 * total) : Nat) : Int) := by
  have htq : (0 : ℚ) < (total : ℚ) := by exact_mod_cast ht
  have hrw : (((loaded * 100 : Nat) : ℚ) / (total : ℚ)) + 1 / 2 =
      (((200 * loaded + total : Nat) : Int) : ℚ) / ((2 * total : Nat) : ℚ) := by
    push_cast
    field_simp
    ring
  unfold downloadPercent
  rw [hrw, Rat.floor_intCast_div_natCast]
  norm_cast

/-- In integer arithmetic `Math.floor(30 + dp * 0.69)` is `(3000 + 69 * dp) / 100`. -/
theorem mappedPercent_eq_div (dp : Int) : mappedPercent dp = (3000 + 69 * dp) / 100 := by
  have hrw : (30 : ℚ) + (dp : ℚ) * 0.69 = ((3000 + 69 * dp : Int) : ℚ) / ((100 : Nat) : ℚ) := by
    push_cast
    norm_num
    ring
  unfold mappedPercent
  rw [hrw, Rat.floor_intCast_div_natCast]
  norm_cast

theorem mappedPercent_mono {a b : Int} (h : a ≤ b) : mappedPercent a ≤ mappedPercent b := by
  rw [mappedPercent_eq_div, mappedPercent_eq_div]
  exact Int.ediv_le_ediv (by norm_num) (by omega)

theorem downloadPercent_mono (total : Nat) {a b : Nat} (h : a ≤ b) :
    downloadPercent a total ≤ downloadPercent b total := by
  unfold downloadPercent
  apply Int.floor_mono
  have h1 : ((a * 100 : Nat) : ℚ) ≤ ((b * 100 : Nat) : ℚ) := by
    exact_mod_cast Nat.mul_le_mul_right 100 h
  have h2 : (0 : ℚ) ≤ (total : ℚ) := Nat.cast_nonneg _
  have h3 := div_le_div_of_nonneg_right h1 h2
  linarith

theorem downloadPercent_nonneg (loaded total : Nat) : 0 ≤ downloadPercent loaded total := by
  unfold downloadPercent
  apply Int.floor_nonneg.2
  have h1 : (0 : ℚ) ≤ ((loaded * 100 : Nat) : ℚ) / (total : ℚ) :=
    div_nonneg (Nat.cast_nonneg _) (Nat.cast_nonneg _)
  linarith

theorem onDownloadProgress_progress (s : State) (loaded total : Nat) (ht : 0 < total) :
    (onDownloadProgress ⟨loaded, some total⟩ s).progress =
      min (mappedPercent (downloadPercent loaded total)) 99 := by
  have h : total ≠ 0 := by omega
  simp [onDownloadProgress, h]

theorem onDownloadProgress_message (s : State) (loaded total : Nat) (ht : 0 < total) :
    (onDownloadProgress ⟨loaded, some total⟩ s).progressMessage =
      (if downloadPercent loaded total < 50 then "Downloading..." else "Finalizing...") := by
  have h : total ≠ 0 := by omega
  simp [onDownloadProgress, h]

theorem onDownloadProgress_bounds (s : State) (loaded total : Nat) (ht : 0 < total) :
    30 ≤ (onDownloadProgress ⟨loaded, some total⟩ s).progress ∧
      (onDownloadProgress ⟨loaded, some total⟩ s).progress ≤ 99 := by
  rw [onDownloadProgress_progress s loaded total ht, mappedPercent_eq_div]
  have h := downloadPercent_nonneg loaded total
  have h2 : (30 : Int) ≤ (3000 + 69 * downloadPercent loaded total) / 100 := by omega
  exact ⟨le_min h2 (by norm_num), min_le_right _ _⟩

/-- C2, as amended. For a byte-progress event with `total > 0` the percent becomes
`min(99, floor(30 + round(loaded*100/total) * 0.69))`, in integers
`min(99, (3000 + 69 * ((200*loaded + total) / (2*total))) / 100)`, the two counters take the
event's values, the simulated-tick timer is cleared, and the message becomes `Downloading...`
when `round(loaded*100/total) < 50` and `Finalizing...` otherwise. In particular `(50, 100)`
gives percent 64 and `(90, 100)` gives percent 92, both with the message `Finalizing...`. -/
theorem onDownloadProgress_spec (s : State) (loaded total : Nat) (ht : 0 < total) :
    (onDownloadProgress ⟨loaded, some total⟩ s).progress = specPercent loaded total ∧
    (onDownloadProgress ⟨loaded, some total⟩ s).progress =
      min 99 ((3000 + 69 * (((200 * loaded + total) / (2 * total) : Nat) : Int)) / 100) ∧
    (onDownloadProgress ⟨loaded, some total⟩ s).progressMessage = specMessage loaded total ∧
    (onDownloadProgress ⟨loaded, some total⟩ s).downloadedBytes = loaded ∧
    (onDownloadProgress ⟨loaded, some total⟩ s).totalBytes = total ∧
    (onDownloadProgress ⟨loaded, some total⟩ s).progressInterval = false ∧
    (onDownloadProgress ⟨50, some 100⟩ s).progress = 64 ∧
    (onDownloadProgress ⟨50, some 100⟩ s).progressMessage = "Finalizing..." ∧
    (onDownloadProgress ⟨90, some 100⟩ s).progress = 92 ∧
    (onDownloadProgress ⟨90, some 100⟩ s).progressMessage = "Finalizing..." := by
  have h : total ≠ 0 := by omega
  refine ⟨?_, ?_, ?_, ?_, ?_, ?_,
    (onDownloadProgress_progress s 50 100 (by decide)).trans (by decide!),
    (onDownloadProgress_message s 50 100 (by decide)).trans (by decide!),
    (onDownloadProgress_progress s 90 100 (by decide)).trans (by decide!),
    (onDownloadProgress_message s 90 100 (by decide)).trans (by decide!)⟩
  · rw [onDownloadProgress_progress s loaded total ht, downloadPercent_eq_specRound, min_comm]
    rfl
  · rw [onDownloadProgress_progress s loaded total ht, downloadPercent_eq_div loaded total ht,
      mappedPercent_eq_div, min_comm]
  · rw [onDownloadProgress_message s loaded total ht, downloadPercent_eq_specRound]
    rfl
  · simp [onDownloadProgress, h]
  · simp [onDownloadProgress, h]
  · simp [onDownloadProgress, h]

/-- Witness of `onDownloadProgress_spec`: `(loaded, total) = (50, 100)` gives percent 64 and
`(90, 100)` gives percent 92, both with the message `Finalizing...`. -/
theorem onDownloadProgress_spec_witness :
    (0 < 100) ∧
    (onDownloadProgress ⟨50, some 100⟩ (handleDownloadStart readyForm)).progress = 64 ∧
    (onDownloadProgress ⟨50, some 100⟩ (handleDownloadStart readyForm)).progressMessage =
      "Finalizing..." ∧
    (onDownloadProgress ⟨90, some 100⟩ (handleDownloadStart readyForm)).progress = 92 ∧
    (onDownloadProgress ⟨90, some 100⟩ (handleDownloadStart readyForm)).progressMessage =
      "Finalizing..." :=
  ⟨by decide,
   ((onDownloadProgress_spec (handleDownloadStart readyForm) 50 100 (by decide)).2.1).trans
     (by decide),
   ((onDownloadProgress_spec (handleDownloadStart readyForm) 50 100 (by decide)).2.2.1).trans
     (by decide!),
   ((onDownloadProgress_spec (handleDownloadStart readyForm) 90 100 (by decide)).2.1).trans
     (by decide),
   ((onDownloadProgress_spec (handleDownloadStart readyForm) 90 100 (by decide)).2.2.1).trans
     (by decide!)⟩

/-- C2, counterexample. The event `(loaded, total) = (50, 100)` gives percent 64, but
`round(50 * 100 / 100) = 50` is not below 50, so the message is `Finalizing...`, not
`Downloading`. -/
theorem half_way_message_is_finalizing :
    (onDownloadProgress ⟨50, some 100⟩ (handleDownloadStart readyForm)).progress = 64 ∧
    downloadPercent 50 100 = 50 ∧
    (onDownloadProgress ⟨50, some 100⟩ (handleDownloadStart readyForm)).progressMessage =
      "Finalizing..." ∧
    (onDownloadProgress ⟨50, some 100⟩ (handleDownloadStart readyForm)).progressMessage ≠
      "Downloading" := by
  refine ⟨by decide!, by decide!, by decide!, by decide!⟩

theorem simulatedProgress_ge (prev : Int) (r : ℚ) (hr : 0 ≤ r) :
    prev ≤ simulatedProgress prev r := by
  unfold simulatedProgress
  split
  · rw [Int.floor_int_add]
    have h : 0 ≤ ⌊r * 5⌋ := Int.floor_nonneg.2 (by linarith)
    omega
  · exact le_refl _

theorem simulatedProgress_le (prev : Int) (r : ℚ) (hr : r < 1) (hp : prev ≤ 33) :
    simulatedProgress prev r ≤ 33 := by
  unfold simulatedProgress
  split
  · rw [Int.floor_int_add]
    have h : ⌊r * 5⌋ < 5 := Int.floor_lt.2 (by push_cast; linarith)
    omega
  · exact hp

theorem simulatedProgress_le_closed (prev : Int) (r : ℚ) (hr : r ≤ 1) (hp : prev ≤ 34) :
    simulatedProgress prev r ≤ 34 := by
  unfold simulatedProgress
  split
  · rw [Int.floor_int_add]
    have h : ⌊r * 5⌋ < 6 := Int.floor_lt.2 (by push_cast; linarith)
    omega
  · exact hp

theorem simulatedProgress_frozen (prev : Int) (r : ℚ) (hp : 30 ≤ prev) :
    simulatedProgress prev r = prev := by
  have h : ¬ prev < 30 := by omega
  simp [simulatedProgress, h]

theorem intervalTick_ge (r : ℚ) (s : State) (hr : 0 ≤ r) :
    s.progress ≤ (intervalTick r s).progress := by
  unfold intervalTick
  split
  · exact simulatedProgress_ge _ _ hr
  · exact le_refl _

theorem intervalTick_le (r : ℚ) (s : State) (hr : r < 1) (hp : s.progress ≤ 33) :
    (intervalTick r s).progress ≤ 33 := by
  unfold intervalTick
  split
  · exact simulatedProgress_le _ _ hr hp
  · exact hp

theorem intervalTick_le_closed (r : ℚ) (s : State) (hr : r ≤ 1) (hp : s.progress ≤ 34) :
    (intervalTick r s).progress ≤ 34 := by
  unfold intervalTick
  split
  · exact simulatedProgress_le_closed _ _ hr hp
  · exact hp

theorem intervalTick_frozen (r : ℚ) (s : State) (hp : 30 ≤ s.progress) :
    (intervalTick r s).progress = s.progress := by
  unfold intervalTick
  split
  · exact simulatedProgress_frozen _ _ hp
  · rfl

theorem runTicks_le : ∀ (draws : List ℚ) (s : State), (∀ r ∈ draws, r < 1) →
    s.progress ≤ 33 → (runTicks draws s).progress ≤ 33 := by
  intro draws
  induction draws with
  | nil => intro s _ hp; exact hp
  | cons r rs ih =>
    intro s hd hp
    exact ih (intervalTick r s) (fun x hx => hd x (List.mem_cons_of_mem r hx))
      (intervalTick_le r s (hd r (List.mem_cons_self r rs)) hp)

theorem runTicks_bounds : ∀ (draws : List ℚ) (s : State), (∀ r ∈ draws, 0 ≤ r ∧ r ≤ 1) →
    s.progress ≤ 34 →
    s.progress ≤ (runTicks draws s).progress ∧ (runTicks draws s).progress ≤ 34 := by
  intro draws
  induction draws with
  | nil => intro s _ hp; exact ⟨le_refl _, hp⟩
  | cons r rs ih =>
    intro s hd hp
    have hr := hd r (List.mem_cons_self r rs)
    have h := ih (intervalTick r s) (fun x hx => hd x (List.mem_cons_of_mem r hx))
      (intervalTick_le_closed r s hr.2 hp)
    have hge := intervalTick_ge r s hr.1
    exact ⟨le_trans hge h.1, h.2⟩

theorem handleDownloadStart_started (s : State) (ht : trim s.title ≠ "") :
    (handleDownloadStart s).progress = 1 ∧ (handleDownloadStart s).progressInterval = true := by
  simp [handleDownloadStart, ht]

theorem replicate_half_draws (n : Nat) : ∀ r ∈ List.replicate n (1 / 2 : ℚ), 0 ≤ r ∧ r ≤ 1 := by
  intro r hr
  rw [List.eq_of_mem_replicate hr]
  norm_num

theorem replicate_half_draws_lt (n : Nat) : ∀ r ∈ List.replicate n (1 / 2 : ℚ), r < 1 := by
  intro r hr
  rw [List.eq_of_mem_replicate hr]
  norm_num

/-- C3, as amended. While only simulated ticks have been handled after the start of
`handleDownload`, with draws in `[0, 1]`: the percent is at least 1 and at most 34; it is at
most 33 when every draw is below 1 and the sum `prev + draw * 5` is exact; and once it is 30 or
more a further tick leaves it unchanged. -/
theorem estimating_percent_bounds (s : State) (draws : List ℚ) (ht : trim s.title ≠ "")
    (hd : ∀ r ∈ draws, 0 ≤ r ∧ r ≤ 1) :
    1 ≤ (runTicks draws (handleDownloadStart s)).progress ∧
    (runTicks draws (handleDownloadStart s)).progress ≤ 34 ∧
    ((∀ r ∈ draws, r < 1) → (runTicks draws (handleDownloadStart s)).progress ≤ 33) ∧
    (30 ≤ (runTicks draws (handleDownloadStart s)).progress →
      ∀ r, (intervalTick r (runTicks draws (handleDownloadStart s))).progress =
        (runTicks draws (handleDownloadStart s)).progress) := by
  have h1 := (handleDownloadStart_started s ht).1
  have hb := runTicks_bounds draws (handleDownloadStart s) hd (by rw [h1]; norm_num)
  rw [h1] at hb
  refine ⟨hb.1, hb.2, ?_, ?_⟩
  · intro hlt
    exact runTicks_le draws (handleDownloadStart s) hlt (by rw [h1]; norm_num)
  · intro h30 r
    exact intervalTick_frozen r _ h30

/-- Witness of `estimating_percent_bounds`: fifteen draws of 0.5 after submitting the ready
form. -/
theorem estimating_percent_bounds_witness :
    1 ≤ (runTicks (List.replicate 15 (1 / 2)) (handleDownloadStart readyForm)).progress ∧
    (runTicks (List.replicate 15 (1 / 2)) (handleDownloadStart readyForm)).progress ≤ 33 :=
  ⟨(estimating_percent_bounds readyForm (List.replicate 15 (1 / 2)) (by decide)
      (replicate_half_draws 15)).1,
   (estimating_percent_bounds readyForm (List.replicate 15 (1 / 2)) (by decide)
      (replicate_half_draws 15)).2.2.1 (replicate_half_draws_lt 15)⟩

/-- C3, counterexample. After the start (percent 1), fifteen simulated ticks that each draw
0.5 raise the percent by 2 each, from 1 to 31, which is not below 30. -/
theorem estimating_percent_reaches_31 :
    (handleDownloadStart readyForm).progress = 1 ∧
    (0 : ℚ) ≤ 1 / 2 ∧ (1 / 2 : ℚ) < 1 ∧
    (runTicks (List.replicate 15 (1 / 2)) (handleDownloadStart readyForm)).progress = 31 ∧
    30 ≤ (runTicks (List.replicate 15 (1 / 2)) (handleDownloadStart readyForm)).progress := by
  refine ⟨by decide, by norm_num, by norm_num, by decide!, by decide!⟩

/-- C5, the code at the failing input. The failure path (catch, then finally) does reset the
percent and both byte counters to 0, but it leaves `progressInterval` as it was: after a
network error that arrives before any byte-progress event the timer is still live, and its
next tick (draw 0.5) moves the percent from 0 to 2. -/
theorem failure_leaves_interval_live (s : State) (err : RequestError) :
    (handleFailure err s).progress = 0 ∧
    (handleFailure err s).downloadedBytes = 0 ∧
    (handleFailure err s).totalBytes = 0 ∧
    (handleFailure err s).progressInterval = s.progressInterval ∧
    (handleFailure networkError (handleDownloadStart readyForm)).progressInterval = true ∧
    (intervalTick (1 / 2) (handleFailure networkError (handleDownloadStart readyForm))).progress
      = 2 := by
  refine ⟨rfl, rfl, rfl, ?_, by decide, by decide!⟩
  unfold handleFailure finallyBlock catchBlock
  split <;> [rfl; (split <;> rfl)]

/-- C6, the code at the failing input. For a rejection with status 429 whose code is not
`ERR_NETWORK`, the message is the rate-limit text, but the severity `warning` set in that
branch is overwritten by the unconditional `setMessageType('error')` that ends the catch block:
the handler leaves `messageType = error`. -/
theorem rate_limit_severity_is_error (s : State) (err : RequestError)
    (hcode : err.code ≠ some "ERR_NETWORK") (hstatus : err.responseStatus = some 429) :
    (handleFailure err s).message = "Too many requests. Please wait a moment and try again." ∧
    (handleFailure err s).messageType = "error" ∧
    (handleFailure err s).messageType ≠ "warning" := by
  simp [handleFailure, finallyBlock, catchBlock, hcode, hstatus]

/-- Witness of `rate_limit_severity_is_error` on a 429 rejection of a started download. -/
theorem rate_limit_severity_is_error_witness :
    (handleFailure rateLimited (handleDownloadStart readyForm)).message =
      "Too many requests. Please wait a moment and try again." ∧
    (handleFailure rateLimited (handleDownloadStart readyForm)).messageType = "error" ∧
    (handleFailure rateLimited (handleDownloadStart readyForm)).messageType ≠ "warning" :=
  rate_limit_severity_is_error (handleDownloadStart readyForm) rateLimited (by decide) rfl

/-- C7, the code at the failing input. On success the percent is forced to 100 whatever it
was, but the `finally` block runs next and sets it to 0: the state left by the handler has
percent 0 while the two-second reset is still pending, and that reset finds the percent
already at 0. -/
theorem success_percent_reset_by_finally (s : State) :
    (successBody s).progress = 100 ∧
    (successBody s).resetTimer = true ∧
    (handleSuccess s).progress = 0 ∧
    (handleSuccess s).resetTimer = true ∧
    (handleSuccess s).messageType = "success" ∧
    (delayedReset (handleSuccess s)).progress = 0 ∧
    (delayedReset (handleSuccess s)).resetTimer = false :=
  ⟨rfl, rfl, rfl, rfl, rfl, rfl, rfl⟩

theorem chain_tickTrace : ∀ (draws : List ℚ) (s : State) (rest : List Int),
    (∀ r ∈ draws, 0 ≤ r ∧ r ≤ 1) →
    (List.Chain' (· ≤ ·) (s.progress :: (tickTrace draws s ++ rest)) ↔
      List.Chain' (· ≤ ·) ((runTicks draws s).progress :: rest)) := by
  intro draws
  induction draws with
  | nil => intro s rest _; simp [tickTrace, runTicks]
  | cons r rs ih =>
    intro s rest hd
    have hr := hd r (List.mem_cons_self r rs)
    have hge := intervalTick_ge r s hr.1
    have h := ih (intervalTick r s) rest (fun x hx => hd x (List.mem_cons_of_mem r hx))
    simp only [tickTrace, runTicks, List.cons_append, List.chain'_cons]
    rw [h]
    exact ⟨fun hh => hh.2, fun hh => ⟨hge, hh⟩⟩

theorem event_progress_mono (s1 s2 : State) (e1 e2 : ProgressEvent) (total : Nat)
    (ht : 0 < total) (h1 : e1.total = some total) (h2 : e2.total = some total)
    (hle : e1.loaded ≤ e2.loaded) :
    (onDownloadProgress e1 s1).progress ≤ (onDownloadProgress e2 s2).progress := by
  obtain ⟨l1, t1⟩ := e1
  obtain ⟨l2, t2⟩ := e2
  simp only at h1 h2 hle
  subst h1 h2
  rw [onDownloadProgress_progress s1 l1 total ht, onDownloadProgress_progress s2 l2 total ht]
  exact min_le_min (mappedPercent_mono (downloadPercent_mono total hle)) (le_refl _)

theorem event_progress_le (s : State) (e : ProgressEvent) (total : Nat)
    (ht : 0 < total) (h : e.total = some total) :
    30 ≤ (onDownloadProgress e s).progress ∧ (onDownloadProgress e s).progress ≤ 99 := by
  obtain ⟨l, t⟩ := e
  simp only at h
  subst h
  exact onDownloadProgress_bounds s l total ht

theorem chain_eventTrace (total : Nat) (ht : 0 < total) :
    ∀ (events : List ProgressEvent) (s : State) (x : Int), TransferEvents total events →
    (List.Chain' (· ≤ ·) (x :: (eventTrace events s ++ [100])) ↔
      (match events with
       | [] => x ≤ 100
       | e :: _ => x ≤ (onDownloadProgress e s).progress)) := by
  intro events
  induction events with
  | nil => intro s x _; simp [eventTrace]
  | cons e es ih =>
    intro s x hev
    obtain ⟨htot, _, hmono, hrest⟩ := hev
    have h := ih (onDownloadProgress e s) (onDownloadProgress e s).progress hrest
    simp only [eventTrace, List.cons_append, List.chain'_cons]
    rw [h]
    constructor
    · intro hh; exact hh.1
    · intro hh
      refine ⟨hh, ?_⟩
      cases es with
      | nil =>
        have := (event_progress_le s e total ht htot).2
        show (onDownloadProgress e s).progress ≤ 100
        omega
      | cons e2 es2 =>
        exact event_progress_mono s (onDownloadProgress e s) e e2 total ht htot hrest.1
          (hmono e2 (List.mem_cons_self e2 es2))

/-- C4, as amended. Over a successful run (start, simulated ticks with draws in `[0, 1]`,
byte-progress events of one transfer with a positive total, completion), the whole sequence of
percents shown is non-decreasing exactly when the first byte-progress event does not lower the
percent reached by the ticks, which is the case whenever that percent is at most 30. Whether or
not it does, the percents never decrease from the start through the simulated ticks, nor
through the byte-progress events up to the 100 of completion, and the 100 of completion is at
least the percent the ticks reached. -/
theorem percentTrace_monotone_iff (s : State) (draws : List ℚ) (events : List ProgressEvent)
    (total : Nat) (htitle : trim s.title ≠ "") (hd : ∀ r ∈ draws, 0 ≤ r ∧ r ≤ 1)
    (ht : 0 < total) (hev : TransferEvents total events) :
    (List.Chain' (· ≤ ·) (percentTrace draws events s) ↔ HandOffOk draws events s) ∧
    ((runTicks draws (handleDownloadStart s)).progress ≤ 30 → HandOffOk draws events s) ∧
    List.Chain' (· ≤ ·)
      ((handleDownloadStart s).progress :: tickTrace draws (handleDownloadStart s)) ∧
    List.Chain' (· ≤ ·)
      (eventTrace events (runTicks draws (handleDownloadStart s)) ++
        [(successBody (runEvents events (runTicks draws (handleDownloadStart s)))).progress]) ∧
    (runTicks draws (handleDownloadStart s)).progress ≤
      (successBody (runEvents events (runTicks draws (handleDownloadStart s)))).progress := by
  have h1 := (handleDownloadStart_started s htitle).1
  have hb := runTicks_bounds draws (handleDownloadStart s) hd (by rw [h1]; norm_num)
  have hs : (successBody (runEvents events (runTicks draws (handleDownloadStart s)))).progress
      = 100 := rfl
  refine ⟨?_, ?_, ?_, ?_, ?_⟩
  rotate_left 2
  · have h := (chain_tickTrace draws (handleDownloadStart s) [] hd).2 (List.chain'_singleton _)
    simpa using h
  · rw [hs]
    have h := (chain_eventTrace total ht events (runTicks draws (handleDownloadStart s)) 0
      hev).2 (by
        cases events with
        | nil => show (0 : Int) ≤ 100; norm_num
        | cons e es =>
          have := (event_progress_le (runTicks draws (handleDownloadStart s)) e total ht
            hev.1).1
          show (0 : Int) ≤ (onDownloadProgress e (runTicks draws (handleDownloadStart s))).progress
          omega)
    exact h.tail
  · rw [hs]; omega
  · unfold percentTrace
    simp only []
    rw [chain_tickTrace draws (handleDownloadStart s) _ hd]
    have hs : (successBody (runEvents events (runTicks draws (handleDownloadStart s)))).progress
        = 100 := rfl
    rw [hs, chain_eventTrace total ht events _ _ hev]
    cases events with
    | nil =>
      simp only [HandOffOk, iff_true]
      omega
    | cons e es => simp only [HandOffOk]
  · intro h30
    cases events with
    | nil => trivial
    | cons e es =>
      have := (event_progress_le (runTicks draws (handleDownloadStart s)) e total ht hev.1).1
      show (runTicks draws (handleDownloadStart s)).progress ≤
        (onDownloadProgress e (runTicks draws (handleDownloadStart s))).progress
      omega

/-- Witness of `percentTrace_monotone_iff`: fourteen draws of 0.5 bring the percent to 29, and
the events `0/100`, `50/100`, `100/100` follow without any decrease. -/
theorem percentTrace_monotone_iff_witness :
    List.Chain' (· ≤ ·) (percentTrace (List.replicate 14 (1 / 2))
      [⟨0, some 100⟩, ⟨50, some 100⟩, ⟨100, some 100⟩] readyForm) :=
  (percentTrace_monotone_iff readyForm (List.replicate 14 (1 / 2))
      [⟨0, some 100⟩, ⟨50, some 100⟩, ⟨100, some 100⟩] 100 (by decide)
      (replicate_half_draws 14) (by decide) (by simp [TransferEvents])).1.2
    ((percentTrace_monotone_iff readyForm (List.replicate 14 (1 / 2))
      [⟨0, some 100⟩, ⟨50, some 100⟩, ⟨100, some 100⟩] 100 (by decide)
      (replicate_half_draws 14) (by decide) (by simp [TransferEvents])).2.1 (by decide!))

/-- C4, counterexample. Fifteen simulated ticks drawing 0.5 bring the percent to 31; the first
byte-progress event, `0` of `100` bytes, then sets it to 30: the shown percent decreases. -/
theorem percent_drops_at_first_event :
    TransferEvents 100 [⟨0, some 100⟩] ∧
    percentTrace (List.replicate 15 (1 / 2)) [⟨0, some 100⟩] readyForm =
      [1, 3, 5, 7, 9, 11, 13, 15, 17, 19, 21, 23, 25, 27, 29, 31, 30, 100] ∧
    ¬ List.Chain' (· ≤ ·) (percentTrace (List.replicate 15 (1 / 2)) [⟨0, some 100⟩] readyForm) := by
  have h : percentTrace (List.replicate 15 (1 / 2)) [⟨0, some 100⟩] readyForm =
      [1, 3, 5, 7, 9, 11, 13, 15, 17, 19, 21, 23, 25, 27, 29, 31, 30, 100] := by decide!
  refine ⟨by simp [TransferEvents], h, ?_⟩
  rw [h]
  simp

theorem matchId_eq_some_iff (s id : List Char) :
    matchId s = some id ↔
      ∃ post, s = id ++ post ∧ id.length = 11 ∧ ∀ c ∈ id, isIdChar c = true := by
  constructor
  · intro h
    unfold matchId at h
    split at h
    · rename_i hc
      obtain ⟨hlen, hall⟩ := hc
      have hid : s.take 11 = id := by simpa using h
      subst hid
      refine ⟨s.drop 11, (List.take_append_drop 11 s).symm, ?_, ?_⟩
      · rw [List.length_take]; omega
      · exact List.all_eq_true.1 hall
    · simp at h
  · rintro ⟨post, rfl, hlen, hall⟩
    have htake : (id ++ post).take 11 = id := by
      rw [← hlen]; exact List.take_left _ _
    have hlen2 : 11 ≤ (id ++ post).length := by
      rw [List.length_append]; omega
    have hall2 : id.all isIdChar = true := List.all_eq_true.2 hall
    unfold matchId
    rw [htake, if_pos ⟨hlen2, hall2⟩]

theorem matchAlternative_eq_some_iff (lit s id : List Char) :
    matchAlternative lit s = some id ↔
      ∃ post, s = lit ++ (id ++ post) ∧ id.length = 11 ∧ ∀ c ∈ id, isIdChar c = true := by
  constructor
  · intro h
    unfold matchAlternative at h
    split at h
    · rename_i hp
      obtain ⟨t, rfl⟩ := List.isPrefixOf_iff_prefix.1 hp
      rw [List.drop_left] at h
      obtain ⟨post, rfl, hlen, hall⟩ := (matchId_eq_some_iff _ _).1 h
      exact ⟨post, rfl, hlen, hall⟩
    · simp at h
  · rintro ⟨post, rfl, hlen, hall⟩
    have hp : lit.isPrefixOf (lit ++ (id ++ post)) = true :=
      List.isPrefixOf_iff_prefix.2 (List.prefix_append _ _)
    unfold matchAlternative
    rw [if_pos hp, List.drop_left]
    exact (matchId_eq_some_iff _ _).2 ⟨post, rfl, hlen, hall⟩

/-- The two literals exclude each other: a string that starts with `youtu.be/` does not start
with `youtube.com/watch?v=`. -/
theorem watchPrefix_not_prefix_of_short (t : List Char) :
    watchPrefix.isPrefixOf (shortPrefix ++ t) = false := by
  rfl

theorem matchHere_eq_some_iff (s id : List Char) :
    matchHere s = some id ↔
      ∃ lit post, (lit = watchPrefix ∨ lit = shortPrefix) ∧ s = lit ++ (id ++ post) ∧
        id.length = 11 ∧ ∀ c ∈ id, isIdChar c = true := by
  constructor
  · intro h
    unfold matchHere at h
    split at h
    · rename_i id0 h1
      have hid : id0 = id := by simpa using h
      subst hid
      obtain ⟨post, hs, hlen, hall⟩ := (matchAlternative_eq_some_iff _ _ _).1 h1
      exact ⟨watchPrefix, post, Or.inl rfl, hs, hlen, hall⟩
    · obtain ⟨post, hs, hlen, hall⟩ := (matchAlternative_eq_some_iff _ _ _).1 h
      exact ⟨shortPrefix, post, Or.inr rfl, hs, hlen, hall⟩
  · rintro ⟨lit, post, hlit, hs, hlen, hall⟩
    rcases hlit with rfl | rfl
    · have h1 := (matchAlternative_eq_some_iff watchPrefix s id).2 ⟨post, hs, hlen, hall⟩
      unfold matchHere
      rw [h1]
    · have h2 := (matchAlternative_eq_some_iff shortPrefix s id).2 ⟨post, hs, hlen, hall⟩
      have h1 : matchAlternative watchPrefix s = none := by
        unfold matchAlternative
        rw [hs, watchPrefix_not_prefix_of_short]
        rfl
      unfold matchHere
      rw [h1]
      exact h2

theorem matchHere_nil : matchHere [] = none := by
  rfl

theorem regexMatch_eq_some_iff : ∀ (url id : List Char),
    regexMatch url = some id ↔
      ∃ pos, matchHere (url.drop pos) = some id ∧
        ∀ q, q < pos → matchHere (url.drop q) = none := by
  intro url
  induction url with
  | nil =>
    intro id
    simp [regexMatch, matchHere_nil]
  | cons c cs ih =>
    intro id
    cases hm : matchHere (c :: cs) with
    | some id0 =>
      have hr : regexMatch (c :: cs) = some id0 := by
        simp [regexMatch, hm]
      rw [hr]
      constructor
      · intro h
        refine ⟨0, ?_, fun q hq => absurd hq (Nat.not_lt_zero q)⟩
        rw [List.drop_zero, hm]; exact h
      · rintro ⟨pos, hpos, hmin⟩
        rcases Nat.eq_zero_or_pos pos with h0 | hp
        · subst h0
          rw [List.drop_zero, hm] at hpos
          exact hpos
        · have := hmin 0 hp
          rw [List.drop_zero, hm] at this
          simp at this
    | none =>
      have hr : regexMatch (c :: cs) = regexMatch cs := by
        simp [regexMatch, hm]
      rw [hr, ih id]
      constructor
      · rintro ⟨pos, hpos, hmin⟩
        refine ⟨pos + 1, by simpa using hpos, ?_⟩
        intro q hq
        cases q with
        | zero => simpa using hm
        | succ q => simpa using hmin q (by omega)
      · rintro ⟨pos, hpos, hmin⟩
        cases pos with
        | zero =>
          rw [List.drop_zero, hm] at hpos
          simp at hpos
        | succ pos =>
          refine ⟨pos, by simpa using hpos, ?_⟩
          intro q hq
          simpa using hmin (q + 1) (by omega)

theorem idOccurrence_iff (url id : List Char) (pos : Nat) :
    IdOccurrence url pos id ↔ matchHere (url.drop pos) = some id := by
  constructor
  · rintro ⟨lit, pre, post, hlit, hurl, hpre, hlen, hall⟩
    have hdrop : url.drop pos = lit ++ (id ++ post) := by
      rw [hurl, ← hpre, List.drop_left]
    rw [hdrop]
    exact (matchHere_eq_some_iff _ _).2 ⟨lit, post, hlit, rfl, hlen, hall⟩
  · intro h
    obtain ⟨lit, post, hlit, hs, hlen, hall⟩ := (matchHere_eq_some_iff _ _).1 h
    have hne : url.drop pos ≠ [] := by
      intro hnil
      rw [hnil, matchHere_nil] at h
      simp at h
    have hlt : pos < url.length := by
      by_contra hge
      exact hne (List.drop_eq_nil_of_le (by omega))
    refine ⟨lit, url.take pos, post, hlit, ?_, ?_, hlen, hall⟩
    · rw [← hs, List.take_append_drop]
    · rw [List.length_take]; omega

/-- C8. The function `extractVideoId` returns the id `id` exactly when `id` is the 11
characters of `[a-zA-Z0-9_-]` that immediately follow the leftmost occurrence of
`youtube.com/watch?v=` or `youtu.be/` followed by 11 such characters; it returns null exactly
when there is no such occurrence. The three URLs of the spec give `dQw4w9WgXcQ`, `dQw4w9WgXcQ`
and null. -/
theorem extractVideoId_spec :
    (∀ url id, extractVideoId url = some id ↔
      ∃ pos, IdOccurrence url pos id ∧ ∀ pos2 id2, IdOccurrence url pos2 id2 → pos ≤ pos2) ∧
    (∀ url, extractVideoId url = none ↔ ¬ ∃ pos id, IdOccurrence url pos id) ∧
    extractVideoId "https://youtu.be/dQw4w9WgXcQ".toList = some "dQw4w9WgXcQ".toList ∧
    extractVideoId "https://www.youtube.com/watch?v=dQw4w9WgXcQ&t=5".toList =
      some "dQw4w9WgXcQ".toList ∧
    extractVideoId "https://example.com/video".toList = none := by
  have hext : ∀ url, extractVideoId url = regexMatch url := by
    intro url
    unfold extractVideoId
    cases regexMatch url <;> rfl
  have hsome : ∀ url id, extractVideoId url = some id ↔
      ∃ pos, IdOccurrence url pos id ∧ ∀ pos2 id2, IdOccurrence url pos2 id2 → pos ≤ pos2 := by
    intro url id
    rw [hext, regexMatch_eq_some_iff]
    constructor
    · rintro ⟨pos, hpos, hmin⟩
      refine ⟨pos, (idOccurrence_iff url id pos).2 hpos, ?_⟩
      intro pos2 id2 hocc
      by_contra hlt
      have h1 := hmin pos2 (by omega)
      rw [(idOccurrence_iff url id2 pos2).1 hocc] at h1
      simp at h1
    · rintro ⟨pos, hocc, hmin⟩
      refine ⟨pos, (idOccurrence_iff url id pos).1 hocc, ?_⟩
      intro q hq
      cases hq2 : matchHere (url.drop q) with
      | none => rfl
      | some id2 =>
        have := hmin q id2 ((idOccurrence_iff url id2 q).2 hq2)
        omega
  refine ⟨hsome, ?_, by decide, by decide, by decide⟩
  intro url
  constructor
  · rintro hnone ⟨pos, id, hocc⟩
    have hq := (idOccurrence_iff url id pos).1 hocc
    -- some occurrence exists, so a leftmost one exists and the function returns its id
    have hex : ∃ p, ∃ i, matchHere (url.drop p) = some i := ⟨pos, id, hq⟩
    classical
    let p0 := Nat.find hex
    obtain ⟨i0, hi0⟩ := Nat.find_spec hex
    have hmin : ∀ q, q < p0 → matchHere (url.drop q) = none := by
      intro q hq'
      have hnot := Nat.find_min hex hq'
      cases hq2 : matchHere (url.drop q) with
      | none => rfl
      | some i => exact absurd ⟨i, hq2⟩ hnot
    have : regexMatch url = some i0 := (regexMatch_eq_some_iff url i0).2 ⟨p0, hi0, hmin⟩
    rw [hext, this] at hnone
    simp at hnone
  · intro hno
    cases h : extractVideoId url with
    | none => rfl
    | some id =>
      obtain ⟨pos, hocc, _⟩ := (hsome url id).1 h
      exact absurd ⟨pos, id, hocc⟩ hno

end App
